import Mathlib

/-!
Verification of the animation storyboard engine of the AI-HR-Capstone
repository (frontend/utils/animationStoryboard.ts): a shallow embedding of
`generateAnimationStoryboard`, `createCurvedPath`, `getTagText` and
`extractPDFSections`, followed by theorems settling the specification
claims about them.  Coordinates and confidences (JavaScript numbers) are
modelled as real numbers; the millisecond time cursor, which only ever
holds sums of non-negative integer constants, is modelled as a natural
number.
-/

namespace AnimationStoryboard

/-- A 2-D point `{ x, y }` in the virtual canvas space. -/
@[ext]
structure Point where
  x : ℝ
  y : ℝ

/-- A bounding box `{ x, y, width, height }`. -/
@[ext]
structure BoundingBox where
  x : ℝ
  y : ℝ
  width : ℝ
  height : ℝ

/-- The canvas dimensions `{ width, height }` (the `pdfDimensions` argument). -/
structure Dimensions where
  width : ℝ
  height : ℝ

/-- The closed union type of section kinds in `PDFSection.type` /
`AnimationStep.section_type`. -/
inductive SectionType where
  | name
  | contact
  | skills
  | experience
  | education
deriving DecidableEq, Repr

/-- The closed union type of `AnimationStep.animation_action`. -/
inductive AnimationAction where
  | move
  | pause
  | glow
  | tag_popout
  | beam_transfer
  | complete
deriving DecidableEq, Repr

/-- The `AnimationStep` interface.  Optional fields of the TypeScript
interface become `Option` fields defaulting to `none` (absent). -/
structure AnimationStep where
  timeline : ℕ
  bubble_position : Point
  highlight_area : Option BoundingBox := none
  tag_text : Option String := none
  animation_action : AnimationAction
  section_type : Option SectionType := none

/-- The `PDFSection` interface. -/
structure PDFSection where
  type : SectionType
  text : String
  boundingBox : BoundingBox
  confidence : ℝ

/-- Embedding of `getTagText` from the source: the display tag of each section kind.
The TypeScript function takes a string and has an unreachable default
branch; here the argument is the closed union type it is called with. -/
def getTagText : SectionType → String
  | .name => "Name Detected"
  | .contact => "Contact Extracted"
  | .skills => "Skills Identified"
  | .experience => "Experience Analyzed"
  | .education => "Education Verified"

/-- Embedding of `createCurvedPath(start, end, steps)` from the source: the loop
`for (let i = 0; i <= steps; i++)` becomes a map over `List.range (steps + 1)`;
`Math.sin`/`Math.PI` become `Real.sin`/`Real.pi`. -/
noncomputable def createCurvedPath (start finish : Point) (steps : ℕ) : List Point :=
  (List.range (steps + 1)).map (fun (i : ℕ) =>
    let t : ℝ := (i : ℝ) / (steps : ℝ)
    let x := start.x + (finish.x - start.x) * t
    let y := start.y + (finish.y - start.y) * t
    let curveOffset := Real.sin (t * Real.pi) * 20
    { x := x + curveOffset, y := y + curveOffset })

/-- The `timePerSection` constant from the source (declared but unused there). -/
def timePerSection : ℕ := 30000

/-- The `moveTime` constant: 8 seconds for movement. -/
def moveTime : ℕ := 8000

/-- The `pauseTime` constant: 12 seconds pause. -/
def pauseTime : ℕ := 12000

/-- The `glowTime` constant: 8 seconds glow. -/
def glowTime : ℕ := 8000

/-- The `tagTime` constant: 4 seconds for tag popout. -/
def tagTime : ℕ := 4000

/-- The `beamTime` constant: 4 seconds for beam transfer. -/
def beamTime : ℕ := 4000

/-- The center of a bounding box, `boundingBox.x + boundingBox.width / 2`
and `boundingBox.y + boundingBox.height / 2`, as computed throughout
`generateAnimationStoryboard`. -/
noncomputable def center (bb : BoundingBox) : Point :=
  { x := bb.x + bb.width / 2, y := bb.y + bb.height / 2 }

/-- The five events pushed for one section inside the `forEach` loop of
`generateAnimationStoryboard`, starting at time cursor `t`: move, pause,
glow, tag popout and beam transfer, the cursor advancing by the matching
duration after each push. -/
noncomputable def sectionEvents (s : PDFSection) (t : ℕ) : List AnimationStep :=
  let c := center s.boundingBox
  [ { timeline := t, bubble_position := c, animation_action := .move },
    { timeline := t + moveTime, bubble_position := c,
      highlight_area := some s.boundingBox, tag_text := some (getTagText s.type),
      animation_action := .pause, section_type := some s.type },
    { timeline := t + moveTime + pauseTime, bubble_position := c,
      highlight_area := some s.boundingBox, tag_text := some (getTagText s.type),
      animation_action := .glow, section_type := some s.type },
    { timeline := t + moveTime + pauseTime + glowTime, bubble_position := c,
      tag_text := some (getTagText s.type),
      animation_action := .tag_popout, section_type := some s.type },
    { timeline := t + moveTime + pauseTime + glowTime + tagTime, bubble_position := c,
      animation_action := .beam_transfer, section_type := some s.type } ]

/-- The total advance of the time cursor across the five per-section pushes
(`moveTime + pauseTime + glowTime + tagTime + beamTime` = 36000 ms). -/
def sectionDuration : ℕ := moveTime + pauseTime + glowTime + tagTime + beamTime

/-- The `pathSteps.forEach((point, pathIndex) => ...)` loop of the source:
one `move` event per path point, at `currentTime + pathIndex * 100`. -/
noncomputable def pathMoves : List Point → ℕ → ℕ → List AnimationStep
  | [], _, _ => []
  | p :: ps, t, pathIndex =>
    { timeline := t + pathIndex * 100, bubble_position := p,
      animation_action := .move } :: pathMoves ps t (pathIndex + 1)

/-- The `pdfSections.forEach((section, index) => ...)` body of
`generateAnimationStoryboard`, threading the `currentTime` cursor: for each
section its five events, then — when a next section exists — the curved
transition sub-path (`createCurvedPath(center, nextCenter, 3)`) emitted via
`pathMoves`, after which the cursor advances by 300 ms. -/
noncomputable def processSections : List PDFSection → ℕ → List AnimationStep × ℕ
  | [], t => ([], t)
  | s :: rest, t =>
    match rest with
    | [] => (sectionEvents s t, t + sectionDuration)
    | next :: _ =>
      let subPath := pathMoves
        (createCurvedPath (center s.boundingBox) (center next.boundingBox) 3)
        (t + sectionDuration) 0
      let result := processSections rest (t + sectionDuration + 300)
      (sectionEvents s t ++ subPath ++ result.1, result.2)

/-- Embedding of `generateAnimationStoryboard(pdfSections, pdfDimensions)` from the
source: the initial move to the first section (when any section exists, at
time 0, advancing the cursor by `moveTime`), the per-section loop, and the
final `complete` event at the canvas center at the final cursor value. -/
noncomputable def generateAnimationStoryboard (pdfSections : List PDFSection)
    (pdfDimensions : Dimensions) : List AnimationStep :=
  let completeAt : ℕ → AnimationStep := fun t =>
    { timeline := t,
      bubble_position := { x := pdfDimensions.width / 2, y := pdfDimensions.height / 2 },
      animation_action := .complete }
  match pdfSections with
  | [] =>
    (processSections [] 0).1 ++ [completeAt (processSections ([] : List PDFSection) 0).2]
  | first :: rest =>
    [{ timeline := 0, bubble_position := center first.boundingBox,
       animation_action := .move }] ++
      (processSections (first :: rest) moveTime).1 ++
      [completeAt (processSections (first :: rest) moveTime).2]

/-- An entry of the `experience` array of the resume data; only the `role`
field is read by `extractPDFSections`. -/
structure ExperienceEntry where
  role : String

/-- An entry of the `education` array of the resume data; only the `degree`
field is read by `extractPDFSections`. -/
structure EducationEntry where
  degree : String

/-- The loosely typed `resumeData` object consumed by `extractPDFSections`:
each optional field is `none` when absent. -/
structure ResumeData where
  name : Option String := none
  email : Option String := none
  phone : Option String := none
  skills : Option (List String) := none
  experience : Option (List ExperienceEntry) := none
  education : Option (List EducationEntry) := none

/-- JavaScript truthiness of an optional string field: present and
non-empty. -/
def truthyStr : Option String → Bool
  | none => false
  | some s => s != ""

/-- Evaluation of `field || ''` on an optional string field. -/
def orEmpty : Option String → String
  | none => ""
  | some s => s

/-- The guard `arr && arr.length > 0` on an optional array field. -/
def nonEmptyList {α : Type} : Option (List α) → Bool
  | none => false
  | some l => decide (0 < l.length)

/-- Embedding of `extractPDFSections(resumeData)` from the source: at most one section
per field group, pushed in the fixed order name, contact, skills,
experience, education, each guarded by the source's truthiness check and
carrying the source's hardcoded bounding box and confidence constant. -/
noncomputable def extractPDFSections (resumeData : ResumeData) : List PDFSection :=
  (if truthyStr resumeData.name then
    [{ type := .name, text := resumeData.name.getD "",
       boundingBox := { x := 100, y := 70, width := 200, height := 30 },
       confidence := 0.95 }]
   else []) ++
  (if truthyStr resumeData.email || truthyStr resumeData.phone then
    [{ type := .contact,
       text := (orEmpty resumeData.email ++ " " ++ orEmpty resumeData.phone).trim,
       boundingBox := { x := 180, y := 110, width := 250, height := 40 },
       confidence := 0.9 }]
   else []) ++
  (if nonEmptyList resumeData.skills then
    [{ type := .skills,
       text := String.intercalate ", " (resumeData.skills.getD []),
       boundingBox := { x := 130, y := 190, width := 300, height := 60 },
       confidence := 0.85 }]
   else []) ++
  (if nonEmptyList resumeData.experience then
    [{ type := .experience,
       text := String.intercalate ", " ((resumeData.experience.getD []).map (fun exp => exp.role)),
       boundingBox := { x := 160, y := 290, width := 350, height := 100 },
       confidence := 0.8 }]
   else []) ++
  (if nonEmptyList resumeData.education then
    [{ type := .education,
       text := String.intercalate ", " ((resumeData.education.getD []).map (fun edu => edu.degree)),
       boundingBox := { x := 200, y := 440, width := 280, height := 80 },
       confidence := 0.75 }]
   else [])

/-- The fixed confidence constant assigned to each section kind by
`extractPDFSections`. -/
noncomputable def confOf : SectionType → ℝ
  | .name => 0.95
  | .contact => 0.9
  | .skills => 0.85
  | .experience => 0.8
  | .education => 0.75

/-- The number of events of a given action in a storyboard. -/
def countAction (sb : List AnimationStep) (a : AnimationAction) : ℕ :=
  sb.countP (fun e => e.animation_action == a)

/-- Sample resume input with only a name, used by witness theorems. -/
def nameOnlyResume : ResumeData := { name := some "Ada" }

/-- The region `extractPDFSections` emits for `nameOnlyResume`. -/
noncomputable def nameRegion : PDFSection :=
  { type := .name, text := "Ada",
    boundingBox := { x := 100, y := 70, width := 200, height := 30 },
    confidence := 0.95 }

/-- A sample skills region, used by witness theorems. -/
noncomputable def skillsRegion : PDFSection :=
  { type := .skills, text := "Lean",
    boundingBox := { x := 130, y := 190, width := 300, height := 60 },
    confidence := 0.85 }

/-- A sample canvas size, used by witness theorems. -/
noncomputable def sampleDims : Dimensions := { width := 800, height := 600 }

/-- The `complete` event the generator emits for the empty region list on
the sample canvas, used by witness theorems. -/
noncomputable def sampleCompleteEvent : AnimationStep :=
  { timeline := 0,
    bubble_position := { x := sampleDims.width / 2, y := sampleDims.height / 2 },
    animation_action := .complete }

/-- Relation between adjacent storyboard events: timestamps are
non-decreasing, and adjacent events may share a timestamp only when both
are `move` events (which happens exactly where a transition sub-path's last
interleaved move meets the next region's move). -/
def timeRel (a b : AnimationStep) : Prop :=
  a.timeline ≤ b.timeline ∧
  (a.timeline = b.timeline →
    a.animation_action = .move ∧ b.animation_action = .move)

/-- Invariant on the optional fields of an event: `highlight_area` is
present only on `pause`/`glow` events, and `tag_text` only on `pause`,
`glow` and `tag_popout` events. -/
def fieldInv (e : AnimationStep) : Prop :=
  (e.highlight_area.isSome →
    e.animation_action = .pause ∨ e.animation_action = .glow) ∧
  (e.tag_text.isSome →
    e.animation_action = .pause ∨ e.animation_action = .glow ∨
    e.animation_action = .tag_popout)

/-- Equation lemma: `processSections` on the empty list. -/
theorem ps_nil (t : ℕ) : processSections [] t = ([], t) := rfl

/-- Equation lemma: `processSections` on a single section emits that
section's five events and advances the cursor by `sectionDuration`. -/
theorem ps_single (s : PDFSection) (t : ℕ) :
    processSections [s] t = (sectionEvents s t, t + sectionDuration) := rfl

/-- Equation lemma: `processSections` on two or more sections emits the
first section's five events, then the curved transition sub-path, then
recurses at cursor `t + sectionDuration + 300`. -/
theorem ps_cons (s next : PDFSection) (rest : List PDFSection) (t : ℕ) :
    processSections (s :: next :: rest) t =
      (sectionEvents s t ++
        pathMoves (createCurvedPath (center s.boundingBox)
          (center next.boundingBox) 3) (t + sectionDuration) 0 ++
        (processSections (next :: rest) (t + sectionDuration + 300)).1,
       (processSections (next :: rest) (t + sectionDuration + 300)).2) := rfl

/-- Equation lemma: the storyboard on a non-empty section list. -/
theorem gen_cons (s : PDFSection) (rest : List PDFSection) (d : Dimensions) :
    generateAnimationStoryboard (s :: rest) d =
      [{ timeline := 0, bubble_position := center s.boundingBox,
         animation_action := .move }] ++
      (processSections (s :: rest) moveTime).1 ++
      [{ timeline := (processSections (s :: rest) moveTime).2,
         bubble_position := { x := d.width / 2, y := d.height / 2 },
         animation_action := .complete }] := rfl

/-- The first event emitted for a non-empty section list is the `move` to
the head section's center at the current cursor value. -/
theorem ps_head (s : PDFSection) (rest : List PDFSection) (t : ℕ) :
    ∃ tail, (processSections (s :: rest) t).1 =
      { timeline := t, bubble_position := center s.boundingBox,
        animation_action := .move } :: tail := by
  cases rest with
  | nil => exact ⟨_, rfl⟩
  | cons next rest2 => exact ⟨_, rfl⟩

/-- Lemma: `processSections` emits a non-empty event list on a non-empty input. -/
theorem ps_ne_nil (s : PDFSection) (rest : List PDFSection) (t : ℕ) :
    (processSections (s :: rest) t).1 ≠ [] := by
  obtain ⟨tail, h⟩ := ps_head s rest t
  simp [h]

/-- Lemma: `createCurvedPath` with three steps evaluates to a four-point list. -/
theorem curved3_decomp (a b : Point) :
    ∃ p0 p1 p2 p3, createCurvedPath a b 3 = [p0, p1, p2, p3] :=
  ⟨_, _, _, _, rfl⟩

/-- Each of the five per-section events occurs exactly once, except that no
`complete` event is among them. -/
theorem se_count (s : PDFSection) (t : ℕ) (a : AnimationAction) :
    countAction (sectionEvents s t) a =
      if a = .complete then 0 else 1 := by
  cases a <;> rfl

/-- Sub-path events are all `move` events, so any other action counts zero
among them. -/
theorem pm_count (pts : List Point) (t i : ℕ) (a : AnimationAction)
    (ha : a ≠ .move) : countAction (pathMoves pts t i) a = 0 := by
  induction pts generalizing i with
  | nil => rfl
  | cons p ps ih =>
    have hne : (AnimationAction.move == a) = false := by
      simp only [beq_eq_false_iff_ne]
      exact Ne.symm ha
    simp only [pathMoves, countAction, List.countP_cons] at *
    simp [hne, ih]

/-- Lemma: `processSections` emits exactly one event of each of the actions
`pause`, `glow`, `tag_popout`, `beam_transfer` per section. -/
theorem ps_count (a : AnimationAction) (hm : a ≠ .move) (hc : a ≠ .complete) :
    ∀ (l : List PDFSection) (t : ℕ),
      countAction (processSections l t).1 a = l.length := by
  intro l
  induction l with
  | nil => intro t; rfl
  | cons s rest ih =>
    intro t
    cases rest with
    | nil =>
      rw [ps_single, se_count]
      simp [hc]
    | cons next rest2 =>
      rw [ps_cons]
      have h1 := se_count s t a
      have h2 := pm_count (createCurvedPath (center s.boundingBox)
        (center next.boundingBox) 3) (t + sectionDuration) 0 a hm
      have h3 := ih (t + sectionDuration + 300)
      simp only [countAction, List.countP_append] at h1 h2 h3 ⊢
      rw [h1, h2, h3]
      simp [hc]
      omega

/-- Lemma: `processSections` never emits a `complete` event. -/
theorem ps_count_complete :
    ∀ (l : List PDFSection) (t : ℕ),
      countAction (processSections l t).1 .complete = 0 := by
  intro l
  induction l with
  | nil => intro t; rfl
  | cons s rest ih =>
    intro t
    cases rest with
    | nil =>
      rw [ps_single, se_count]
      simp
    | cons next rest2 =>
      rw [ps_cons]
      have h1 := se_count s t .complete
      have h2 := pm_count (createCurvedPath (center s.boundingBox)
        (center next.boundingBox) 3) (t + sectionDuration) 0 .complete
        (by simp)
      have h3 := ih (t + sectionDuration + 300)
      simp only [countAction, List.countP_append] at h1 h2 h3 ⊢
      rw [h1, h2, h3]
      simp

/-- Each of the five per-section events satisfies the optional-field
invariant. -/
theorem se_fields (s : PDFSection) (t : ℕ) :
    ∀ e ∈ sectionEvents s t, fieldInv e := by
  intro e he
  simp only [sectionEvents, List.mem_cons, List.not_mem_nil, or_false] at he
  rcases he with h | h | h | h | h <;> subst h <;> simp [fieldInv]

/-- Sub-path events carry no highlight and no tag and are `move` events. -/
theorem pm_fields (pts : List Point) (t i : ℕ) :
    ∀ e ∈ pathMoves pts t i,
      e.highlight_area = none ∧ e.tag_text = none ∧
      e.animation_action = .move := by
  induction pts generalizing i with
  | nil => intro e he; cases he
  | cons p ps ih =>
    intro e he
    cases he with
    | head => exact ⟨rfl, rfl, rfl⟩
    | tail _ h => exact ih (i + 1) e h

/-- Every event emitted by `processSections` satisfies the optional-field
invariant. -/
theorem ps_fields :
    ∀ (l : List PDFSection) (t : ℕ) (e : AnimationStep),
      e ∈ (processSections l t).1 → fieldInv e := by
  intro l
  induction l with
  | nil =>
    intro t e he
    rw [ps_nil] at he
    cases he
  | cons s rest ih =>
    intro t e he
    cases rest with
    | nil =>
      rw [ps_single] at he
      exact se_fields s t e he
    | cons next rest2 =>
      rw [ps_cons] at he
      simp only [List.mem_append] at he
      rcases he with (he | he) | he
      · exact se_fields s t e he
      · obtain ⟨h1, h2, _⟩ := pm_fields _ _ _ e he
        constructor
        · intro hh
          rw [h1] at hh
          simp at hh
        · intro hh
          rw [h2] at hh
          simp at hh
      · exact ih (t + sectionDuration + 300) e he

/-- The five per-section events form a `timeRel` chain (their timestamps
strictly increase). -/
theorem se_chain (s : PDFSection) (t : ℕ) :
    List.Chain' timeRel (sectionEvents s t) := by
  simp only [sectionEvents, List.chain'_cons, List.chain'_singleton, timeRel]
  refine ⟨⟨?_, ?_⟩, ⟨?_, ?_⟩, ⟨?_, ?_⟩, ⟨?_, ?_⟩⟩ <;>
    simp only [moveTime, pauseTime, glowTime, tagTime] <;>
    omega

/-- The last of the five per-section events is the beam transfer at
`t + moveTime + pauseTime + glowTime + tagTime`. -/
theorem se_getLast (s : PDFSection) (t : ℕ) :
    (sectionEvents s t).getLast? =
      some { timeline := t + moveTime + pauseTime + glowTime + tagTime,
             bubble_position := center s.boundingBox,
             animation_action := .beam_transfer,
             section_type := some s.type } := rfl

/-- Timestamp bounds of the five per-section events: all lie in
`[t, t + sectionDuration)`. -/
theorem se_mem_bounds (s : PDFSection) (t : ℕ) :
    ∀ e ∈ sectionEvents s t,
      t ≤ e.timeline ∧ e.timeline < t + sectionDuration := by
  intro e he
  simp only [sectionEvents, List.mem_cons, List.not_mem_nil, or_false] at he
  rcases he with h | h | h | h | h <;> subst h <;>
    constructor <;>
    simp only [sectionDuration, moveTime, pauseTime, glowTime, tagTime,
      beamTime] <;>
    omega

/-- Evaluation of `pathMoves` on an explicit four-point path. -/
theorem pm4 (p0 p1 p2 p3 : Point) (T : ℕ) :
    pathMoves [p0, p1, p2, p3] T 0 =
      [ { timeline := T + 0 * 100, bubble_position := p0,
          animation_action := .move },
        { timeline := T + 1 * 100, bubble_position := p1,
          animation_action := .move },
        { timeline := T + 2 * 100, bubble_position := p2,
          animation_action := .move },
        { timeline := T + 3 * 100, bubble_position := p3,
          animation_action := .move } ] := rfl

/-- Evaluation of `getLast?` of an explicit four-element list. -/
theorem getLast4 {α : Type} (a b c d : α) : ([a, b, c, d]).getLast? = some d := rfl

/-- Master timing lemma for `processSections` at cursor `t`: the final
cursor is at least `t`; every emitted timestamp lies between `t` and the
final cursor; the events form a `timeRel` chain (non-decreasing, adjacent
equality only between two `move` events); and the last emitted timestamp
is strictly below the final cursor. -/
theorem ps_spec :
    ∀ (l : List PDFSection) (t : ℕ),
      t ≤ (processSections l t).2 ∧
      (∀ e ∈ (processSections l t).1,
        t ≤ e.timeline ∧ e.timeline ≤ (processSections l t).2) ∧
      List.Chain' timeRel (processSections l t).1 ∧
      (∀ e, (processSections l t).1.getLast? = some e →
        e.timeline < (processSections l t).2) := by
  intro l
  induction l with
  | nil =>
    intro t
    refine ⟨le_refl t, ?_, ?_, ?_⟩
    · intro e he
      rw [ps_nil] at he
      cases he
    · rw [ps_nil]
      exact List.chain'_nil
    · intro e he
      rw [ps_nil] at he
      simp at he
  | cons s rest ih =>
    intro t
    have hsd : sectionDuration = 36000 := rfl
    have hmp : moveTime + pauseTime + glowTime + tagTime = 32000 := rfl
    cases rest with
    | nil =>
      rw [ps_single]
      dsimp only
      refine ⟨Nat.le_add_right t sectionDuration, ?_, se_chain s t, ?_⟩
      · intro e he
        have := se_mem_bounds s t e he
        omega
      · intro e he
        rw [se_getLast] at he
        cases he
        dsimp only
        omega
    | cons next rest2 =>
      obtain ⟨ih1, ih2, ih3, ih4⟩ := ih (t + sectionDuration + 300)
      obtain ⟨p0, p1, p2, p3, hc⟩ :=
        curved3_decomp (center s.boundingBox) (center next.boundingBox)
      rw [ps_cons, hc, pm4]
      dsimp only
      refine ⟨?_, ?_, ?_, ?_⟩
      · exact le_trans (by omega) ih1
      · intro e he
        simp only [List.mem_append] at he
        rcases he with (he | he) | he
        · have hb := se_mem_bounds s t e he
          constructor
          · omega
          · omega
        · simp only [List.mem_cons, List.not_mem_nil, or_false] at he
          rcases he with h | h | h | h <;> subst h <;> constructor <;>
            dsimp only <;> omega
        · have hb := ih2 e he
          exact ⟨by omega, hb.2⟩
      · apply List.chain'_append.mpr
        refine ⟨?_, ih3, ?_⟩
        · apply List.chain'_append.mpr
          refine ⟨se_chain s t, ?_, ?_⟩
          · simp only [List.chain'_cons, List.chain'_singleton, timeRel,
              and_true]
            refine ⟨⟨?_, ?_⟩, ⟨?_, ?_⟩, ⟨?_, ?_⟩⟩ <;> omega
          · intro x hx y hy
            rw [se_getLast] at hx
            cases hx
            simp only [List.head?_cons, Option.mem_def, Option.some.injEq] at hy
            subst hy
            refine ⟨by dsimp only; omega, ?_⟩
            intro h
            dsimp only at h
            exact absurd h (by omega)
        · intro x hx y hy
          rw [List.getLast?_append_of_ne_nil _ (by simp)] at hx
          rw [getLast4] at hx
          simp only [Option.mem_def, Option.some.injEq] at hx
          subst hx
          obtain ⟨tail, htail⟩ := ps_head next rest2 (t + sectionDuration + 300)
          rw [htail] at hy
          simp only [List.head?_cons, Option.mem_def, Option.some.injEq] at hy
          subst hy
          exact ⟨by dsimp only; omega, fun _ => ⟨rfl, rfl⟩⟩
      · intro e he
        rw [List.getLast?_append_of_ne_nil _
          (ps_ne_nil next rest2 (t + sectionDuration + 300))] at he
        exact ih4 e he

/-- Lemma: `createCurvedPath` always returns `steps + 1` points. -/
theorem createCurvedPath_length (start finish : Point) (steps : ℕ) :
    (createCurvedPath start finish steps).length = steps + 1 := by
  unfold createCurvedPath
  rw [List.length_map, List.length_range]

/-- The storyboard always ends with the completion event: its `getLast?` is
the `complete` event at the canvas center, scheduled at the final value of
the `currentTime` cursor (which started at `0`, or at `moveTime` after the
initial approach when at least one section exists). -/
theorem storyboard_getLast (l : List PDFSection) (d : Dimensions) :
    (generateAnimationStoryboard l d).getLast? =
      some { timeline := (processSections l
               (match l with | [] => 0 | _ :: _ => moveTime)).2,
             bubble_position := { x := d.width / 2, y := d.height / 2 },
             animation_action := .complete } := by
  cases l with
  | nil => rfl
  | cons s rest =>
    simp only [generateAnimationStoryboard]
    rw [List.getLast?_concat]

/-- C9: on the empty region list the generator returns exactly one event, a
`complete` event with timestamp `0` positioned at the canvas center; being a
total Lean function of the embedded code, it raises no fault and is not
empty on empty input. -/
theorem storyboard_empty_input (d : Dimensions) :
    generateAnimationStoryboard [] d =
      [{ timeline := 0,
         bubble_position := { x := d.width / 2, y := d.height / 2 },
         animation_action := .complete }] := rfl

/-- C8: for every region list and canvas size, the final event of the
storyboard is a `complete` event positioned at the canvas center
(`width / 2`, `height / 2`), scheduled at the final value of the running
time cursor threaded through `processSections`. -/
theorem storyboard_final_complete_event (l : List PDFSection) (d : Dimensions) :
    (generateAnimationStoryboard l d).getLast? =
      some { timeline := (processSections l
               (match l with | [] => 0 | _ :: _ => moveTime)).2,
             bubble_position := { x := d.width / 2, y := d.height / 2 },
             animation_action := .complete } :=
  storyboard_getLast l d

/-- C1, counterexample: on a concrete single-region input the generator
produces seven events, not the six the claim states — the per-region `move`
is not skipped for the first region, so a duplicate leading `move` follows
the initial approach. -/
theorem storyboard_single_region_six_events_refuted :
    (generateAnimationStoryboard
      [{ type := .name, text := "Ada",
         boundingBox := { x := 100, y := 70, width := 200, height := 30 },
         confidence := 0.95 }]
      { width := 800, height := 600 }).length = 7 := rfl

/-- C1, amended: on every single-region input the generator produces exactly
seven events — an initial-approach `move` at time 0, then an (un-skipped)
duplicate per-region `move` to the same center, then one `pause` (with the
region's bounding box as `highlightRegion` and the kind's display tag as
`label`), one `glow`, one `tagPopout`, one `beamTransfer` and one `complete`
— with strictly increasing timestamps. -/
theorem storyboard_single_region_spec (r : PDFSection) (d : Dimensions) :
    generateAnimationStoryboard [r] d =
      [ { timeline := 0, bubble_position := center r.boundingBox,
          animation_action := .move },
        { timeline := 8000, bubble_position := center r.boundingBox,
          animation_action := .move },
        { timeline := 16000, bubble_position := center r.boundingBox,
          highlight_area := some r.boundingBox,
          tag_text := some (getTagText r.type),
          animation_action := .pause, section_type := some r.type },
        { timeline := 28000, bubble_position := center r.boundingBox,
          highlight_area := some r.boundingBox,
          tag_text := some (getTagText r.type),
          animation_action := .glow, section_type := some r.type },
        { timeline := 36000, bubble_position := center r.boundingBox,
          tag_text := some (getTagText r.type),
          animation_action := .tag_popout, section_type := some r.type },
        { timeline := 40000, bubble_position := center r.boundingBox,
          animation_action := .beam_transfer, section_type := some r.type },
        { timeline := 44000,
          bubble_position := { x := d.width / 2, y := d.height / 2 },
          animation_action := .complete } ] ∧
    List.Chain' (fun a b : ℕ => a < b)
      ((generateAnimationStoryboard [r] d).map (fun e => e.timeline)) := by
  refine ⟨rfl, ?_⟩
  rw [show (generateAnimationStoryboard [r] d).map (fun e => e.timeline) =
      [0, 8000, 16000, 28000, 36000, 40000, 44000] from rfl]
  norm_num [List.chain'_cons, List.chain'_singleton]

/-- C3: for every pair of points and every `steps ≥ 1`, `createCurvedPath`
returns exactly `steps + 1` points; the first point equals `start` exactly
and the last equals `finish` exactly (the sine offset `sin(t·π)·20` being
zero at both endpoints), and each point adds the same scalar offset
`sin(t·π)·20` to both the linearly interpolated `x` and `y`. -/
theorem createCurvedPath_endpoints (start finish : Point) (steps : ℕ)
    (h : 1 ≤ steps) :
    (createCurvedPath start finish steps).length = steps + 1 ∧
    (createCurvedPath start finish steps).head? = some start ∧
    (createCurvedPath start finish steps).getLast? = some finish ∧
    ∀ i : ℕ, i < steps + 1 →
      (createCurvedPath start finish steps)[i]? =
        some { x := start.x + (finish.x - start.x) * ((i : ℝ) / (steps : ℝ)) +
                 Real.sin (((i : ℝ) / (steps : ℝ)) * Real.pi) * 20,
               y := start.y + (finish.y - start.y) * ((i : ℝ) / (steps : ℝ)) +
                 Real.sin (((i : ℝ) / (steps : ℝ)) * Real.pi) * 20 } := by
  have hs : (steps : ℝ) ≠ 0 := Nat.cast_ne_zero.mpr (by omega)
  have key : ∀ i : ℕ, i < steps + 1 →
      (createCurvedPath start finish steps)[i]? =
        some { x := start.x + (finish.x - start.x) * ((i : ℝ) / (steps : ℝ)) +
                 Real.sin (((i : ℝ) / (steps : ℝ)) * Real.pi) * 20,
               y := start.y + (finish.y - start.y) * ((i : ℝ) / (steps : ℝ)) +
                 Real.sin (((i : ℝ) / (steps : ℝ)) * Real.pi) * 20 } := by
    intro i hi
    simp only [createCurvedPath, List.getElem?_map, List.getElem?_range hi,
      Option.map_some']
  refine ⟨createCurvedPath_length start finish steps, ?_, ?_, key⟩
  · rw [List.head?_eq_getElem?, key 0 (by omega)]
    have h0 : ((0 : ℕ) : ℝ) / (steps : ℝ) = 0 := by simp
    congr 1
    ext
    · simp [h0, Real.sin_zero]
    · simp [h0, Real.sin_zero]
  · rw [List.getLast?_eq_getElem?, createCurvedPath_length,
      Nat.add_sub_cancel, key steps (by omega)]
    have h1 : ((steps : ℕ) : ℝ) / (steps : ℝ) = 1 := div_self hs
    congr 1
    ext
    · rw [h1, one_mul, Real.sin_pi, zero_mul, add_zero, mul_one]
      ring
    · rw [h1, one_mul, Real.sin_pi, zero_mul, add_zero, mul_one]
      ring

/-- C3 witness: the theorem instantiated at `start = (0, 0)`,
`finish = (10, 5)`, `steps = 2`. -/
theorem createCurvedPath_endpoints_witness :
    1 ≤ 2 ∧
    (createCurvedPath { x := 0, y := 0 } { x := 10, y := 5 } 2).length = 2 + 1 ∧
    (createCurvedPath { x := 0, y := 0 } { x := 10, y := 5 } 2).head? =
      some { x := 0, y := 0 } :=
  ⟨by norm_num,
   (createCurvedPath_endpoints { x := 0, y := 0 } { x := 10, y := 5 } 2
     (by norm_num)).1,
   (createCurvedPath_endpoints { x := 0, y := 0 } { x := 10, y := 5 } 2
     (by norm_num)).2.1⟩

/-- The kinds of the emitted regions form a sublist of the fixed order
name, contact, skills, experience, education: each field group contributes
at most one region, and the order is preserved. -/
theorem extract_types_sublist (r : ResumeData) :
    ((extractPDFSections r).map (fun s => s.type)).Sublist
      [.name, .contact, .skills, .experience, .education] := by
  have step : ∀ (c : Bool) (sec : PDFSection) (k : SectionType), sec.type = k →
      ((if c then [sec] else []).map (fun s => s.type)).Sublist [k] := by
    intro c sec k hk
    cases c
    · simp
    · simp [hk]
  unfold extractPDFSections
  simp only [List.map_append]
  exact ((((step _ _ _ rfl).append (step _ _ _ rfl)).append
    (step _ _ _ rfl)).append (step _ _ _ rfl)).append (step _ _ _ rfl)

/-- A region of each kind is present exactly when the source's truthiness
guard for that field group holds: absent or empty field groups are omitted
entirely. -/
theorem extract_presence (r : ResumeData) :
    ((∃ s ∈ extractPDFSections r, s.type = .name) ↔ truthyStr r.name = true) ∧
    ((∃ s ∈ extractPDFSections r, s.type = .contact) ↔
      (truthyStr r.email || truthyStr r.phone) = true) ∧
    ((∃ s ∈ extractPDFSections r, s.type = .skills) ↔
      nonEmptyList r.skills = true) ∧
    ((∃ s ∈ extractPDFSections r, s.type = .experience) ↔
      nonEmptyList r.experience = true) ∧
    ((∃ s ∈ extractPDFSections r, s.type = .education) ↔
      nonEmptyList r.education = true) := by
  cases h1 : truthyStr r.name <;>
  cases h2 : (truthyStr r.email || truthyStr r.phone) <;>
  cases h3 : nonEmptyList r.skills <;>
  cases h4 : nonEmptyList r.experience <;>
  cases h5 : nonEmptyList r.education <;>
  simp [extractPDFSections, h1, h2, h3, h4, h5]

/-- C4, counterexample: on the input whose `skills` array is the singleton
list containing the empty string, the guard `skills.length > 0` passes and
a region with empty text is emitted, refuting the claim that no region is
ever emitted with empty text. -/
theorem extract_empty_text_emitted :
    ∃ s, s ∈ extractPDFSections { skills := some [""] } ∧ s.text = "" := by
  refine ⟨{ type := .skills, text := "",
            boundingBox := { x := 130, y := 190, width := 300, height := 60 },
            confidence := 0.85 }, ?_, rfl⟩
  rw [show extractPDFSections { skills := some [""] } =
      [{ type := .skills, text := "",
         boundingBox := { x := 130, y := 190, width := 300, height := 60 },
         confidence := 0.85 }] from rfl]
  exact List.Mem.head _

/-- C4, amended: `extractPDFSections` emits at most one region per field
group, in the fixed order name, contact, skills, experience, education when
present (the emitted kinds are a sublist of that order), and a field group
is present exactly when the source guard holds (absent fields, empty
strings and empty arrays are omitted entirely); however a region's text may
still be empty when the guarded source data consists of empty or
whitespace strings. -/
theorem extract_regions_order_omission (r : ResumeData) :
    ((extractPDFSections r).map (fun s => s.type)).Sublist
      [.name, .contact, .skills, .experience, .education] ∧
    (((∃ s ∈ extractPDFSections r, s.type = .name) ↔ truthyStr r.name = true) ∧
     ((∃ s ∈ extractPDFSections r, s.type = .contact) ↔
       (truthyStr r.email || truthyStr r.phone) = true) ∧
     ((∃ s ∈ extractPDFSections r, s.type = .skills) ↔
       nonEmptyList r.skills = true) ∧
     ((∃ s ∈ extractPDFSections r, s.type = .experience) ↔
       nonEmptyList r.experience = true) ∧
     ((∃ s ∈ extractPDFSections r, s.type = .education) ↔
       nonEmptyList r.education = true)) :=
  ⟨extract_types_sublist r, extract_presence r⟩

/-- C6: every emitted region's confidence is the fixed constant of its
kind; each constant lies in `[0, 1]`, and the constants strictly descend in
the field order: name highest, then contact, skills, experience, education
lowest. -/
theorem extract_confidence_constants (r : ResumeData) :
    (∀ s ∈ extractPDFSections r, s.confidence = confOf s.type) ∧
    (∀ k : SectionType, 0 ≤ confOf k ∧ confOf k ≤ 1) ∧
    confOf .contact < confOf .name ∧ confOf .skills < confOf .contact ∧
    confOf .experience < confOf .skills ∧
    confOf .education < confOf .experience := by
  refine ⟨?_, ?_, ?_, ?_, ?_, ?_⟩
  · intro s hs
    unfold extractPDFSections at hs
    simp only [List.mem_append] at hs
    rcases hs with ((((h | h) | h) | h) | h) <;>
      (split_ifs at h <;> simp_all [confOf])
  · intro k
    cases k <;> norm_num [confOf]
  · norm_num [confOf]
  · norm_num [confOf]
  · norm_num [confOf]
  · norm_num [confOf]

/-- C6 witness: the theorem instantiated on the input with only a name
field; the name region is emitted with the name constant 0.95. -/
theorem extract_confidence_constants_witness :
    nameRegion ∈ extractPDFSections nameOnlyResume ∧
    nameRegion.confidence = confOf nameRegion.type := by
  have mem : nameRegion ∈ extractPDFSections nameOnlyResume := by
    rw [show extractPDFSections nameOnlyResume = [nameRegion] from rfl]
    exact List.Mem.head _
  exact ⟨mem, (extract_confidence_constants nameOnlyResume).1 _ mem⟩

/-- C2: the storyboard is never empty (in particular whenever at least one
region exists), its last element is the only `complete` event, and for
every input of N regions it contains exactly N events each of the actions
`pause`, `glow`, `tagPopout` and `beamTransfer` (so in particular for
N ≥ 2). -/
theorem storyboard_event_counts (l : List PDFSection) (d : Dimensions) :
    generateAnimationStoryboard l d ≠ [] ∧
    (∃ e, (generateAnimationStoryboard l d).getLast? = some e ∧
      e.animation_action = .complete) ∧
    countAction (generateAnimationStoryboard l d) .complete = 1 ∧
    countAction (generateAnimationStoryboard l d) .pause = l.length ∧
    countAction (generateAnimationStoryboard l d) .glow = l.length ∧
    countAction (generateAnimationStoryboard l d) .tag_popout = l.length ∧
    countAction (generateAnimationStoryboard l d) .beam_transfer = l.length := by
  have hlast := storyboard_getLast l d
  refine ⟨?_, ⟨_, hlast, rfl⟩, ?_, ?_, ?_, ?_, ?_⟩
  · intro h
    rw [h] at hlast
    simp at hlast
  · cases l with
    | nil => rfl
    | cons s rest =>
      rw [gen_cons]
      have h := ps_count_complete (s :: rest) moveTime
      simp only [countAction, List.countP_append] at h ⊢
      rw [h]
      simp [List.countP_cons, List.countP_nil]
  · cases l with
    | nil => rfl
    | cons s rest =>
      rw [gen_cons]
      have h := ps_count .pause (by simp) (by simp) (s :: rest) moveTime
      simp only [countAction, List.countP_append] at h ⊢
      rw [h]
      simp [List.countP_cons, List.countP_nil]
  · cases l with
    | nil => rfl
    | cons s rest =>
      rw [gen_cons]
      have h := ps_count .glow (by simp) (by simp) (s :: rest) moveTime
      simp only [countAction, List.countP_append] at h ⊢
      rw [h]
      simp [List.countP_cons, List.countP_nil]
  · cases l with
    | nil => rfl
    | cons s rest =>
      rw [gen_cons]
      have h := ps_count .tag_popout (by simp) (by simp) (s :: rest) moveTime
      simp only [countAction, List.countP_append] at h ⊢
      rw [h]
      simp [List.countP_cons, List.countP_nil]
  · cases l with
    | nil => rfl
    | cons s rest =>
      rw [gen_cons]
      have h := ps_count .beam_transfer (by simp) (by simp) (s :: rest) moveTime
      simp only [countAction, List.countP_append] at h ⊢
      rw [h]
      simp [List.countP_cons, List.countP_nil]

/-- C7: in every storyboard, `highlightRegion` is present only on events
whose action is `pause` or `glow`, and `label` is present only on events
whose action is `pause`, `glow` or `tagPopout`. -/
theorem storyboard_optional_fields (l : List PDFSection) (d : Dimensions)
    (e : AnimationStep) (he : e ∈ generateAnimationStoryboard l d) :
    (e.highlight_area.isSome →
      e.animation_action = .pause ∨ e.animation_action = .glow) ∧
    (e.tag_text.isSome →
      e.animation_action = .pause ∨ e.animation_action = .glow ∨
      e.animation_action = .tag_popout) := by
  cases l with
  | nil =>
    rw [show generateAnimationStoryboard [] d =
        [{ timeline := 0,
           bubble_position := { x := d.width / 2, y := d.height / 2 },
           animation_action := .complete }] from rfl] at he
    simp only [List.mem_cons, List.not_mem_nil, or_false] at he
    subst he
    simp
  | cons s rest =>
    rw [gen_cons] at he
    simp only [List.mem_append, List.mem_cons, List.not_mem_nil, or_false] at he
    rcases he with (he | he) | he
    · subst he
      simp
    · exact ps_fields (s :: rest) moveTime e he
    · subst he
      simp

/-- C7 witness: the theorem instantiated on the empty-input storyboard and
its (sole) `complete` event. -/
theorem storyboard_optional_fields_witness :
    sampleCompleteEvent ∈ generateAnimationStoryboard [] sampleDims ∧
    ((sampleCompleteEvent.highlight_area.isSome →
       sampleCompleteEvent.animation_action = .pause ∨
       sampleCompleteEvent.animation_action = .glow) ∧
     (sampleCompleteEvent.tag_text.isSome →
       sampleCompleteEvent.animation_action = .pause ∨
       sampleCompleteEvent.animation_action = .glow ∨
       sampleCompleteEvent.animation_action = .tag_popout)) := by
  have mem : sampleCompleteEvent ∈ generateAnimationStoryboard [] sampleDims := by
    rw [show generateAnimationStoryboard [] sampleDims = [sampleCompleteEvent]
      from rfl]
    exact List.Mem.head _
  exact ⟨mem, storyboard_optional_fields [] sampleDims sampleCompleteEvent mem⟩

/-- C5: in every storyboard the timestamps are monotonically non-decreasing
from the first event to the last; adjacent events share an equal timestamp
only when both are `move` events, which happens exactly at sub-path
boundaries (the last interleaved sub-path move meeting the next region's
move). -/
theorem storyboard_timestamps_monotone (l : List PDFSection) (d : Dimensions) :
    List.Chain' timeRel (generateAnimationStoryboard l d) := by
  have hm : moveTime = 8000 := rfl
  cases l with
  | nil =>
    rw [show generateAnimationStoryboard [] d =
        [{ timeline := 0,
           bubble_position := { x := d.width / 2, y := d.height / 2 },
           animation_action := .complete }] from rfl]
    simp
  | cons s rest =>
    rw [gen_cons]
    obtain ⟨h1, h2, h3, h4⟩ := ps_spec (s :: rest) moveTime
    apply List.chain'_append.mpr
    refine ⟨?_, by simp, ?_⟩
    · apply List.chain'_append.mpr
      refine ⟨by simp, h3, ?_⟩
      intro x hx y hy
      simp only [List.getLast?_singleton, Option.mem_def, Option.some.injEq]
        at hx
      subst hx
      obtain ⟨tail, htail⟩ := ps_head s rest moveTime
      rw [htail] at hy
      simp only [List.head?_cons, Option.mem_def, Option.some.injEq] at hy
      subst hy
      refine ⟨by dsimp only; omega, ?_⟩
      intro h
      dsimp only at h
      exact absurd h (by omega)
    · intro x hx y hy
      rw [List.getLast?_append_of_ne_nil _ (ps_ne_nil s rest moveTime)] at hx
      simp only [Option.mem_def] at hx
      have hlt := h4 x hx
      simp only [List.head?_cons, Option.mem_def, Option.some.injEq] at hy
      subst hy
      refine ⟨le_of_lt hlt, ?_⟩
      intro h
      dsimp only at h
      omega

/-- C10: every inter-region transition emits exactly four `move` events
spaced 100 ms apart starting at the current cursor value; the cursor then
advances by exactly 300 ms (the recursion continues at
`t + sectionDuration + 300`), so the last sub-path move and the following
region's move share an identical timestamp; consequently every storyboard
with at least two regions contains an adjacent pair of equal-timestamp
`move` events. -/
theorem transition_subpath_spec (s next : PDFSection)
    (rest : List PDFSection) (t : ℕ) :
    (pathMoves (createCurvedPath (center s.boundingBox)
        (center next.boundingBox) 3) (t + sectionDuration) 0).map
        (fun e => (e.timeline, e.animation_action)) =
      [(t + sectionDuration, .move), (t + sectionDuration + 100, .move),
       (t + sectionDuration + 200, .move),
       (t + sectionDuration + 300, .move)] ∧
    (processSections (s :: next :: rest) t).1 =
      sectionEvents s t ++
        pathMoves (createCurvedPath (center s.boundingBox)
          (center next.boundingBox) 3) (t + sectionDuration) 0 ++
        (processSections (next :: rest) (t + sectionDuration + 300)).1 ∧
    (∃ tail, (processSections (next :: rest) (t + sectionDuration + 300)).1 =
        { timeline := t + sectionDuration + 300,
          bubble_position := center next.boundingBox,
          animation_action := .move } :: tail) ∧
    ∀ (l : List PDFSection) (d : Dimensions), 2 ≤ l.length →
      ∃ p q pre post, p.timeline = q.timeline ∧
        p.animation_action = .move ∧ q.animation_action = .move ∧
        pre ++ [p, q] ++ post = generateAnimationStoryboard l d := by
  refine ⟨?_, rfl, ps_head next rest (t + sectionDuration + 300), ?_⟩
  · obtain ⟨p0, p1, p2, p3, hc⟩ :=
      curved3_decomp (center s.boundingBox) (center next.boundingBox)
    rw [hc, pm4]
    simp
  · intro l d hl
    obtain ⟨a, b, rest', rfl⟩ : ∃ a b r', l = a :: b :: r' := by
      cases l with
      | nil => simp at hl
      | cons a l2 =>
        cases l2 with
        | nil => simp at hl
        | cons b r' => exact ⟨a, b, r', rfl⟩
    obtain ⟨p0, p1, p2, p3, hc⟩ :=
      curved3_decomp (center a.boundingBox) (center b.boundingBox)
    obtain ⟨tail, htail⟩ := ps_head b rest' (moveTime + sectionDuration + 300)
    refine ⟨{ timeline := moveTime + sectionDuration + 3 * 100,
              bubble_position := p3, animation_action := .move },
            { timeline := moveTime + sectionDuration + 300,
              bubble_position := center b.boundingBox,
              animation_action := .move },
            [{ timeline := 0, bubble_position := center a.boundingBox,
               animation_action := .move }] ++
            sectionEvents a moveTime ++
            [{ timeline := moveTime + sectionDuration + 0 * 100,
               bubble_position := p0, animation_action := .move },
             { timeline := moveTime + sectionDuration + 1 * 100,
               bubble_position := p1, animation_action := .move },
             { timeline := moveTime + sectionDuration + 2 * 100,
               bubble_position := p2, animation_action := .move }],
            tail ++
            [{ timeline := (processSections (a :: b :: rest') moveTime).2,
               bubble_position := { x := d.width / 2, y := d.height / 2 },
               animation_action := .complete }],
            by norm_num, rfl, rfl, ?_⟩
    rw [gen_cons, ps_cons, hc, pm4, htail]
    simp [List.append_assoc]

/-- C10 witness: the adjacent equal-timestamp pair of `move` events exists
in the concrete two-region storyboard. -/
theorem transition_subpath_spec_witness :
    2 ≤ ([nameRegion, skillsRegion] : List PDFSection).length ∧
    ∃ p q pre post, p.timeline = q.timeline ∧
      p.animation_action = .move ∧ q.animation_action = .move ∧
      pre ++ [p, q] ++ post =
        generateAnimationStoryboard [nameRegion, skillsRegion] sampleDims :=
  ⟨by simp,
   (transition_subpath_spec nameRegion skillsRegion [] 0).2.2.2
     [nameRegion, skillsRegion] sampleDims (by simp)⟩

end AnimationStoryboard
